import Mathlib

/-!
Verification of the xdi dependency-injection core against its specification.

Each Python construct referenced by a claim is embedded shallowly:
pure functions become Lean functions, stateful code becomes explicit
state passing, exceptions become `Except`/`Option` results.  Python's
three-valued rich comparisons (`True`/`False`/`NotImplemented`) are
embedded as the inductive `PyCmp`.
-/

namespace Xdi

/-! ### Container identity, equality and hashing (`xdi/containers.py`)

A container object is modelled by its object identity `oid` (two model
values denote the same Python object exactly when their `oid`s agree;
the constructor hands out process-unique ids) together with its `name`.
-/

/-- Result of a Python rich comparison: `True`, `False` or `NotImplemented`. -/
inductive PyCmp where
  | T
  | F
  | NI
deriving DecidableEq, Repr

structure ContainerObj where
  oid : Nat
  name : String
deriving DecidableEq, Repr

/-- Identity test `o is self` for two modelled container objects. -/
def isSame (o self : ContainerObj) : Bool :=
  o.oid == self.oid

/-- Method `Container.__eq__`: `o is self or (False if isinstance(o, Container) else NotImplemented)`.
Both operands here are containers, so the `isinstance` test holds. -/
def containerEq (self o : ContainerObj) : PyCmp :=
  if isSame o self then .T else .F

/-- Method `Container.__ne__`: `not o is self or (True if isinstance(o, Container) else NotImplemented)`.
Python `or` returns its first operand when truthy, otherwise its second;
both operands here are containers, so the `isinstance` test holds. -/
def containerNe (self o : ContainerObj) : PyCmp :=
  if !(isSame o self) then .T else .T

/-- Method `Container.__hash__`: `hash(self.name)`, for an arbitrary string hash `h`. -/
def containerHash (h : String → Nat) (c : ContainerObj) : Nat :=
  h c.name

/-! ### Provider reduction (`xdi/providers/util.py`, `ProviderResolver._reduce_providers`)

For the one key and scope under consideration, a provider is modelled by
its identity, its `is_default` flag and the outcome of
`can_bind(scope, key)`.  `substitute` is an abstract combination
operation passed in as a function. -/

structure ProviderR where
  pid : Nat
  is_default : Bool
  canBind : Bool
deriving DecidableEq, Repr

/-- Method `ProviderResolver._reduce_providers(obj, stack)`:
`stack = [v for v in stack if v.can_bind(...)]`;
`stack = [v for v in stack if not v.is_default] or stack`;
`if stack: top, *extra = stack; if extra: top = top.substitute(*extra); return top`. -/
def reduce_providers (sub : ProviderR → List ProviderR → ProviderR)
    (stack : List ProviderR) : Option ProviderR :=
  let stack1 := stack.filter (fun v => v.canBind)
  let stack2 :=
    match stack1.filter (fun v => !v.is_default) with
    | [] => stack1
    | l => l
  match stack2 with
  | [] => none
  | top :: extra => some (if extra.isEmpty then top else sub top extra)

/-- Spec-side restatement of the binding-lookup reduction, following the
specification's words: filter by `can_bind`; if any non-default provider
exists discard defaults, otherwise retain them; the head of a non-empty
result is the primary and the rest are passed to `substitute`; an empty
result resolves to nothing. -/
def reduce_providers_spec (sub : ProviderR → List ProviderR → ProviderR)
    (stack : List ProviderR) : Option ProviderR :=
  let kept := stack.filter (fun v => v.canBind)
  let final :=
    if kept.any (fun v => !v.is_default) then kept.filter (fun v => !v.is_default)
    else kept
  match final with
  | [] => none
  | primary :: rest => some (if rest.isEmpty then primary else sub primary rest)

/-! ### Singleton decorator (`laza/di/providers/functools.py`, `decorators.singleton`)

The closed-over cell `value` (initially `Missing`) becomes an explicit
`Option` field; the number of factory invocations is tracked in `calls`.
The factory may vary per invocation and may fail, hence `f : Nat → Except ε α`. -/

structure SingletonSt (α ε : Type) where
  value : Option α
  calls : Nat
deriving DecidableEq, Repr

/-- One call of the closure returned by `decorators.singleton`:
`if value is Missing: value = func()` then `return value`.  A raising
factory leaves the cell at `Missing`. -/
def singletonStep (f : Nat → Except ε α) (s : SingletonSt α ε) :
    Except ε α × SingletonSt α ε :=
  match s.value with
  | some v => (.ok v, s)
  | none =>
    match f s.calls with
    | .ok v => (.ok v, ⟨some v, s.calls + 1⟩)
    | .error e => (.error e, ⟨none, s.calls + 1⟩)

/-- Runs `n` successive calls of the singleton closure, collecting the results. -/
def singletonRunN (f : Nat → Except ε α) :
    Nat → SingletonSt α ε → List (Except ε α) × SingletonSt α ε
  | 0, s => ([], s)
  | n + 1, s =>
    let (r, s') := singletonStep f s
    let (rs, s'') := singletonRunN f n s'
    (r :: rs, s'')

/-! ### Scope bindings map (`xdi/providers/util.py`, `BindingsMap`)

Keys are `Nat`; a bound resolver object is identified by the key it was
bound for and a creation stamp, so that re-running resolution would
produce a distinguishable object.  The dict is an association list in
insertion order; `none` stored for a key is a cached negative result. -/

structure ResolverObj where
  forKey : Nat
  stamp : Nat
deriving DecidableEq, Repr

structure BindingsSt where
  cache : List (Nat × Option ResolverObj)
  rcalls : Nat
deriving DecidableEq, Repr

/-- Lookup of a stored entry (`dict` hit test): `some v` when the key is
present with stored entry `v`, `none` when the key is absent. -/
def cacheLookup (c : List (Nat × Option ResolverObj)) (k : Nat) :
    Option (Option ResolverObj) :=
  (c.find? (fun p => p.1 == k)).map (fun p => p.2)

/-- Method `BindingsMap.__getitem__` with `__missing__` semantics: a present key
returns its stored entry untouched; an absent key runs
`p = resolver.resolve(key)` and `dict.setdefault(self, key, p and p.bind(...))`,
storing the bound resolver (or `None` when resolution failed) and
returning it.  `provided k` abstracts whether resolution finds a
provider for `k`; each resolution attempt is counted in `rcalls` and
stamps the created resolver object. -/
def bindingsGetitem (provided : Nat → Bool) (st : BindingsSt) (k : Nat) :
    Option ResolverObj × BindingsSt :=
  match cacheLookup st.cache k with
  | some v => (v, st)
  | none =>
    let v := if provided k then some ⟨k, st.rcalls⟩ else none
    (v, ⟨st.cache ++ [(k, v)], st.rcalls + 1⟩)

/-- The Python error raised by every public mutator of `BindingsMap`. -/
inductive PyErr where
  | typeError (msg : String)
deriving DecidableEq, Repr

/-- Method `BindingsMap.not_mutable`: unconditionally raises `TypeError`. -/
def not_mutable : Except PyErr Unit :=
  .error (.typeError "immutable type BindingsMap")

/-- Method `BindingsMap.__setitem__` is `not_mutable`. -/
def bmSetitem (_st : BindingsSt) (_k : Nat) (_v : Option ResolverObj) :
    Except PyErr Unit := not_mutable

/-- Method `BindingsMap.__delitem__` is `not_mutable`. -/
def bmDelitem (_st : BindingsSt) (_k : Nat) : Except PyErr Unit := not_mutable

/-- Method `BindingsMap.setdefault` is `not_mutable`. -/
def bmSetdefault (_st : BindingsSt) (_k : Nat) (_v : Option ResolverObj) :
    Except PyErr Unit := not_mutable

/-- Method `BindingsMap.pop` is `not_mutable`. -/
def bmPop (_st : BindingsSt) (_k : Nat) : Except PyErr Unit := not_mutable

/-- Method `BindingsMap.popitem` is `not_mutable`. -/
def bmPopitem (_st : BindingsSt) : Except PyErr Unit := not_mutable

/-- Method `BindingsMap.update` is `not_mutable`. -/
def bmUpdate (_st : BindingsSt) (_other : List (Nat × Option ResolverObj)) :
    Except PyErr Unit := not_mutable

/-- Method `BindingsMap.clear` is `not_mutable`. -/
def bmClear (_st : BindingsSt) : Except PyErr Unit := not_mutable

/-- Method `BindingsMap.copy` is `not_mutable`. -/
def bmCopy (_st : BindingsSt) : Except PyErr Unit := not_mutable

/-! ### Parameter classification (`laza/di/providers/functools.py`, `ParamResolver.__new__`)

A Python value in a parameter slot is `_EMPTY`, an `InjectionMarker`
wrapping a dependency, or a plain literal. -/

inductive PyVal where
  | empty
  | marker (dep : Nat)
  | lit (v : Nat)
deriving DecidableEq, Repr

/-- Test `isinstance(x, InjectionMarker)`. -/
def isMarker : PyVal → Bool
  | .marker _ => true
  | _ => false

structure ParamRes where
  annot : PyVal
  value : PyVal
  dependency : PyVal
  default : PyVal
  has_value : Bool
  has_default : Bool
deriving DecidableEq, Repr

/-- Constructor `ParamResolver.__new__(value, default, annotation)`: the dependency is
`value` if it is a marker, else `default` if it is a marker, else the
annotation; `has_value = not (value is _EMPTY or isinstance(value, InjectionMarker))`
and likewise for `has_default`. -/
def mkParamRes (value default annot : PyVal) : ParamRes :=
  let dependency :=
    if isMarker value then value
    else if isMarker default then default
    else annot
  { annot := annot
    value := value
    dependency := dependency
    default := default
    has_value := !((value == .empty) || isMarker value)
    has_default := !((default == .empty) || isMarker default) }

/-! ### Callable-factory argument assembly
(`laza/di/providers/functools.py`, `CallableFactoryResolver`)

A resolved positional slot is the triple `(v, fn, d)` produced by
`ParamResolver.resolve`: a fixed value, a resolver closure (represented
by the value it returns), and a default — each possibly `_EMPTY`
(`none`).  Keyword dictionaries are embedded as functions
`String → Option α`; `none` means the name is absent. -/

structure RArg (α : Type) where
  v : Option α
  fn : Option α
  d : Option α
deriving DecidableEq, Repr

/-- One step of `FactoryResolver.iargs`:
`if not v is _EMPTY: yield v; elif not fn is _EMPTY: yield fn(); else: yield d`. -/
def iargsOne (r : RArg α) : Option α :=
  match r.v with
  | some v => some v
  | none =>
    match r.fn with
    | some w => some w
    | none => r.d

/-- Method `FactoryResolver.iargs(args)`: one yielded value per resolved slot. -/
def iargsF : List (RArg α) → List (Option α)
  | [] => []
  | r :: rest => iargsOne r :: iargsF rest

/-- Method `CallableFactoryResolver.iargs(args, a)` where `pmode` models the
resolver's `is_partial` attribute: when true, the injected slots are
yielded first and the user-supplied tuple `a` after them; when false
(the default), `a` is yielded first and only the injected slots from
index `len(a)` onwards follow (`args[len(a):]`). -/
def iargsC (pmode : Bool) (args : List (RArg α)) (a : List α) : List (Option α) :=
  if pmode then iargsF args ++ a.map some
  else a.map some ++ iargsF (args.drop a.length)

/-- Python dict union `d1 | d2`: entries of `d2` win. -/
def dunion (d1 d2 : String → Option α) : String → Option α :=
  fun n =>
    match d2 n with
    | some v => some v
    | none => d1 n

/-- A Python dict built from a list of insertions: a later insertion of
the same name overwrites an earlier one. -/
def pydict (l : List (String × α)) : String → Option α :=
  fun n => (l.reverse.find? (fun p => p.1 == n)).map (fun p => p.2)

/-- Method `FactoryResolver.ikwds(kwds, skip)`: invoke each keyword resolver
whose name is not in `skip` (when `skip` is empty no name is skipped,
which the filter also yields). -/
def ikwds (kwds : List (String × α)) (skip : String → Option α) : String → Option α :=
  pydict (kwds.filter (fun p => (skip p.1).isNone))

/-- The keyword dictionary received by `func` in
`CallableFactoryResolver.kwd_wrap_func` / `arg_kwd_wrap_func`:
`func(*…, **(kw := vals | kw), **self.ikwds(kwds, kw))`.  The two splats
are disjoint by construction of `ikwds`, so their merge is a union. -/
def callableCallKw (vals : String → Option α) (kwds : List (String × α))
    (kw : String → Option α) : String → Option α :=
  let kw2 := dunion vals kw
  dunion kw2 (ikwds kwds kw2)

/-! ### Asynchronous positional assembly
(`laza/di/providers/functools.py`, `FactoryResolver.async_iargs`)

A resolved slot is again a triple `(v, fn, d)`, but a resolver closure
result may be awaitable: `fn = some (aw, w)` means `fn()` returned a
value that is awaitable iff `aw`, materialising to `w`.  The `aws` dict
(insertion-ordered, keyed by the slot's original index) becomes a list
of `(index, result)` pairs; `asyncio.gather` preserves that order, and
each result is re-inserted with `lst.insert(i, v)`. -/

structure AArg (α : Type) where
  v : Option α
  fn : Option (Bool × α)
  d : Option α
deriving DecidableEq, Repr

/-- Python `list.insert(i, x)` (appends when `i ≥ len`). -/
def pyInsert (i : Nat) (x : α) (l : List α) : List α :=
  l.take i ++ x :: l.drop i

/-- The loop of `async_iargs`: a fixed value or a plain resolver result
or the default is appended to `lst`; an awaitable resolver result is
scheduled under the slot's index `i` in `aws`. -/
def asyncCollect : List (AArg α) → Nat → List (Option α) → List (Nat × α) →
    List (Option α) × List (Nat × α)
  | [], _, lst, aws => (lst, aws)
  | r :: rest, i, lst, aws =>
    match r.v with
    | some v => asyncCollect rest (i + 1) (lst ++ [some v]) aws
    | none =>
      match r.fn with
      | some (true, w) => asyncCollect rest (i + 1) lst (aws ++ [(i, w)])
      | some (false, w) => asyncCollect rest (i + 1) (lst ++ [some w]) aws
      | none => asyncCollect rest (i + 1) (lst ++ [r.d]) aws

/-- Method `FactoryResolver.async_iargs(args)`: collect, gather, then
`for i, v in zip(aws, await asyncio.gather(*aws.values())): lst.insert(i, v)`. -/
def async_iargs (args : List (AArg α)) : List (Option α) :=
  let (lst, aws) := asyncCollect args 0 [] []
  aws.foldl (fun l p => pyInsert p.1 (some p.2) l) lst

/-- The value a slot contributes to the final call, awaitable or not. -/
def aVal (r : AArg α) : Option α :=
  match r.v with
  | some v => some v
  | none =>
    match r.fn with
    | some (_, w) => some w
    | none => r.d

/-- The non-awaitable values of a slot list, in declaration order
(the contents of `lst` after the collection loop). -/
def aPlains : List (AArg α) → List (Option α)
  | [] => []
  | r :: rest =>
    match r.v with
    | some v => some v :: aPlains rest
    | none =>
      match r.fn with
      | some (true, _) => aPlains rest
      | some (false, w) => some w :: aPlains rest
      | none => r.d :: aPlains rest

/-- The scheduled awaitables with indices relative to the current slot
(the contents of `aws` after the collection loop, up to an offset). -/
def aAws : List (AArg α) → List (Nat × α)
  | [] => []
  | r :: rest =>
    match r.v with
    | some _ => (aAws rest).map (fun p => (p.1 + 1, p.2))
    | none =>
      match r.fn with
      | some (true, w) => (0, w) :: (aAws rest).map (fun p => (p.1 + 1, p.2))
      | some (false, _) => (aAws rest).map (fun p => (p.1 + 1, p.2))
      | none => (aAws rest).map (fun p => (p.1 + 1, p.2))

/-! ### Container inclusion graph and DRO traversal
(`xdi/containers.py`, `Container._dro_entries_`)

A container is its id together with the ordered list of containers it
includes (`_included` preserves insertion order).  `_dro_entries_`
iterates `reversed(self._included)`, recursing depth-first and emitting
`(source, container)` pairs, with an extra `(prev, c)` pair between
consecutive siblings.  The inclusion graph is assumed acyclic, which the
tree-shaped embedding enforces by construction. -/

inductive Ctr where
  | mk (cid : Nat) (included : List Ctr)

def Ctr.cid : Ctr → Nat
  | .mk i _ => i

def Ctr.included : Ctr → List Ctr
  | .mk _ l => l

theorem sizeOf_ctrList_append (l₁ l₂ : List Ctr) :
    sizeOf (l₁ ++ l₂) + 1 = sizeOf l₁ + sizeOf l₂ := by
  induction l₁ with
  | nil => simp; omega
  | cons a l ih => simp [List.cons_append]; omega

theorem sizeOf_ctrList_reverse (l : List Ctr) : sizeOf l.reverse = sizeOf l := by
  induction l with
  | nil => rfl
  | cons a l ih =>
    rw [List.reverse_cons]
    have h := sizeOf_ctrList_append l.reverse [a]
    simp only [List.cons.sizeOf_spec, List.nil.sizeOf_spec] at h ⊢
    omega

theorem sizeOf_included_lt (c : Ctr) : sizeOf c.included < sizeOf c := by
  cases c with
  | mk i l => simp [Ctr.included]

mutual

/-- Method `Container._dro_entries_(source)`:
`yield source or self, self`; then, over `reversed(self._included)`,
`prev = next(it); yield from prev._dro_entries_(self)` and for each
further `c`: `yield prev, c; yield from c._dro_entries_(self)`. -/
def droEntries (c : Ctr) (source : Option Ctr) : List (Ctr × Ctr) :=
  (source.getD c, c) ::
    (match h : c.included.reverse with
     | [] => []
     | p :: rest => droEntries p (some c) ++ droChain c p rest)
termination_by sizeOf c
decreasing_by
  all_goals
    (have h1 := congrArg sizeOf h
     have h2 := sizeOf_ctrList_reverse c.included
     have h3 := sizeOf_included_lt c
     simp only [List.cons.sizeOf_spec] at h1
     omega)

/-- The `for c in it` tail of `_dro_entries_`: the sibling pair
`(prev, c)` followed by `c`'s own recursive entries. -/
def droChain (self prev : Ctr) : List Ctr → List (Ctr × Ctr)
  | [] => []
  | d :: rest => (prev, d) :: (droEntries d (some self) ++ droChain self d rest)
termination_by l => sizeOf l
decreasing_by
  all_goals (simp; try omega)

end

/-- The sequence of containers visited by the traversal: the second
component of every emitted pair, in emission order. -/
def droVisited (c : Ctr) : List Ctr := (droEntries c none).map Prod.snd

/-- Transitive reachability along the inclusion graph (the containers
the traversal is expected to cover). -/
inductive Reaches : Ctr → Ctr → Prop
  | refl (c : Ctr) : Reaches c c
  | step {c d e : Ctr} : d ∈ c.included → Reaches d e → Reaches c e

/-! ### Exit stack
(`laza/di/util.py`, `AbstractExitStack.__exit__` and `_fix_exception_context`)

A Python exception object is modelled by an identity `eid` (identities
are unique in every scenario considered) and its mutable `__context__`
chain, carried inside the value; mutation is rebuilding.  A registered
callback is `Option Exc → CbRes`: given the exception triple it
receives (`none` models `(None, None, None)`), it either returns
normally (with its boolean suppression result) or raises a new
exception, whose interpreter-assigned context chain is part of the
scenario. -/

inductive Exc where
  | mk (eid : Nat) (ctx : Option Exc)

def Exc.eid : Exc → Nat
  | .mk i _ => i

/-- Function `_fix_exception_context(new_exc, old_exc, frame_exc)`: walk
`new_exc`'s `__context__` chain; stop unchanged at `None` or at
`old_exc`; at `frame_exc`, repoint that link to `old_exc`; otherwise
descend.  `old_exc` is compared (and written) as a value, `frame_exc`
only compared, so it is passed as its identity. -/
def fixCtx (oldE : Option Exc) (frameId : Option Nat) : Exc → Exc
  | .mk i c =>
    match c with
    | none => .mk i none
    | some cc =>
      if oldE.map Exc.eid = some cc.eid then .mk i (some cc)
      else if frameId = some cc.eid then .mk i oldE
      else .mk i (some (fixCtx oldE frameId cc))

/-- Outcome of one callback invocation in `__exit__`'s `try` block. -/
inductive CbRes where
  | ok (suppress : Bool)
  | err (e : Exc)

/-- The `while self:` loop of `AbstractExitStack.__exit__`, over the
callbacks in pop (LIFO) order.  State: the current `exc_details`,
`pending_raise` and `suppressed_exc`.  Returns the invocation trace
(callback id, details it received) and the final state.  A normal
return with a true suppression result clears the exception state; a
raising callback has its exception's context fixed against the previous
details and the frame exception, and becomes the new details. -/
def runCbs (frameExc : Option Exc) :
    List (Nat × (Option Exc → CbRes)) → Option Exc → Bool → Bool →
      List (Nat × Option Exc) × Option Exc × Bool × Bool
  | [], ed, pending, supp => ([], ed, pending, supp)
  | (i, cb) :: rest, ed, pending, supp =>
    let nxt :=
      match cb ed with
      | .ok true => (none, false, true)
      | .ok false => (ed, pending, supp)
      | .err e => (some (fixCtx ed (frameExc.map Exc.eid) e), true, supp)
    let r := runCbs frameExc rest nxt.1 nxt.2.1 nxt.2.2
    ((i, ed) :: r.1, r.2)

structure ExitOutcome where
  trace : List (Nat × Option Exc)
  raised : Option Exc
  returned : Bool

/-- Method `AbstractExitStack.__exit__(*exc_details)`: callbacks are popped
from the end of the registration list; after the loop, a pending
exception is re-raised with its carefully fixed `__context__` preserved
(`raised`), otherwise the method returns `received_exc and
suppressed_exc` (`returned`, meaningless when `raised` is set). -/
def stackExit (cbs : List (Nat × (Option Exc → CbRes)))
    (excDetails frameExc : Option Exc) : ExitOutcome :=
  let r := runCbs frameExc cbs.reverse excDetails false false
  { trace := r.1
    raised := if r.2.2.1 then r.2.1 else none
    returned := excDetails.isSome && r.2.2.2 }

/-- The in-flight exception of the exit-stack scenarios. -/
def frameExc0 : Exc := .mk 5 none

/-- A teardown callback that completes normally without suppressing. -/
def cbOk : Option Exc → CbRes := fun _ => .ok false

/-- A teardown callback that raises exception `i`, whose
interpreter-assigned `__context__` is the frame's own exception. -/
def cbRaise (i : Nat) : Option Exc → CbRes := fun _ => .err (.mk i (some frameExc0))

/-- Scenario: resources `A`, `B`, `C` entered in that order;
`B`'s teardown raises. -/
def demoStackB : List (Nat × (Option Exc → CbRes)) := [(1, cbOk), (2, cbRaise 9), (3, cbOk)]

/-- Scenario: `A` and `B`'s teardowns both raise, `C` completes. -/
def demoStackAB : List (Nat × (Option Exc → CbRes)) :=
  [(1, cbRaise 9), (2, cbRaise 8), (3, cbOk)]

end Xdi

namespace Xdi

/-! ## Theorems -/

theorem droEntries_mk (i : Nat) (inc : List Ctr) (src : Option Ctr) :
    droEntries (.mk i inc) src =
      (src.getD (.mk i inc), .mk i inc) ::
        (match inc.reverse with
         | [] => []
         | p :: rest => droEntries p (some (.mk i inc)) ++ droChain (.mk i inc) p rest) := by
  rw [droEntries]
  simp only [Ctr.included]
  cases hrev : inc.reverse with
  | nil => rfl
  | cons p rest => rfl

theorem droChain_nil (self prev : Ctr) : droChain self prev [] = [] := by
  rw [droChain]

theorem droChain_cons (self prev d : Ctr) (rest : List Ctr) :
    droChain self prev (d :: rest) =
      (prev, d) :: (droEntries d (some self) ++ droChain self d rest) := by
  rw [droChain]

theorem mem_chain (e : Ctr) :
    ∀ (l : List Ctr) (self prev x : Ctr), x ∈ l →
      (∀ src, e ∈ (droEntries x src).map Prod.snd) →
      e ∈ (droChain self prev l).map Prod.snd := by
  intro l
  induction l with
  | nil =>
    intro self prev x hx _
    cases hx
  | cons d rest ih =>
    intro self prev x hx hmem
    rw [droChain_cons]
    simp only [List.map_cons, List.map_append, List.mem_cons, List.mem_append]
    rcases List.mem_cons.mp hx with h1 | h2
    · subst h1
      exact Or.inr (Or.inl (hmem (some self)))
    · exact Or.inr (Or.inr (ih self d x h2 hmem))

/-- C1 counterexample: with two injected slots resolving to `10` and `20`
and user-supplied positional arguments `(1, 2)`, partial mode yields
`f(10, 20, 1, 2)` — not `f(1, 2, 10, 20)` as the claim states — and
default (claimed "prefix") mode yields `f(1, 2)`, the user arguments
having consumed both injected slots — not `f(10, 20, 1, 2)`. -/
theorem callable_iargs_counterexample :
    iargsC true [⟨none, some 10, none⟩, ⟨none, some 20, none⟩] [1, 2] =
      [some 10, some 20, some 1, some 2] ∧
    iargsC true [⟨none, some 10, none⟩, ⟨none, some 20, none⟩] [1, 2] ≠
      [some 1, some 2, some 10, some 20] ∧
    iargsC false [⟨none, some 10, none⟩, ⟨none, some 20, none⟩] [1, 2] =
      [some 1, some 2] ∧
    iargsC false [⟨none, some 10, none⟩, ⟨none, some 20, none⟩] [1, 2] ≠
      [some 10, some 20, some 1, some 2] := by
  decide

/-- C1 (amended): for a Callable-factory provider, in partial mode
(`is_partial` true) the injected arguments precede the user-supplied
positional arguments — calling with `(a…)` invokes `f(*injected, *a)` —
while in the default mode (`is_partial` false) the user arguments bind
left-to-right first, replacing the leading injected slots, and only the
remaining injected slots fill the tail — `f(*a, *injected[len(a):])`;
in both modes a user keyword argument overrides any injected keyword
value or keyword resolver of the same name. -/
theorem callable_iargs_modes (args : List (RArg α)) (a : List α)
    (vals kw : String → Option α) (kwds : List (String × α)) (n : String) (x : α) :
    iargsC true args a = iargsF args ++ a.map some ∧
    iargsC false args a = a.map some ++ iargsF (args.drop a.length) ∧
    (kw n = some x → callableCallKw vals kwds kw n = some x) := by
  refine ⟨rfl, rfl, fun hkw => ?_⟩
  have hkw2 : dunion vals kw n = some x := by
    unfold dunion
    rw [hkw]
  have hskip : ikwds kwds (dunion vals kw) n = none := by
    unfold ikwds pydict
    have : (kwds.filter (fun p => ((dunion vals kw) p.1).isNone)).reverse.find?
        (fun p => p.1 == n) = none := by
      rw [List.find?_eq_none]
      intro q hq
      rw [List.mem_reverse, List.mem_filter] at hq
      intro hqn
      rw [show q.1 = n from by simpa using hqn] at hq
      rw [hkw2] at hq
      simp at hq
    rw [this]
    rfl
  have hd : ∀ (d1 d2 : String → Option α) (m : String), d2 m = none →
      dunion d1 d2 m = d1 m := by
    intro d1 d2 m h
    unfold dunion
    rw [h]
  show dunion (dunion vals kw) (ikwds kwds (dunion vals kw)) n = some x
  rw [hd _ _ n hskip]
  exact hkw2

theorem shift_shift (x : List (Nat × α)) (i : Nat) :
    (x.map (fun p => (p.1 + 1, p.2))).map (fun p => (p.1 + i, p.2)) =
      x.map (fun p => (p.1 + (i + 1), p.2)) := by
  induction x with
  | nil => rfl
  | cons p rest ih =>
    simp only [List.map_cons, ih]
    rw [Nat.add_assoc, Nat.add_comm 1 i]

theorem asyncCollect_spec (args : List (AArg α)) :
    ∀ (i : Nat) (lst : List (Option α)) (aws : List (Nat × α)),
      asyncCollect args i lst aws =
        (lst ++ aPlains args, aws ++ (aAws args).map (fun p => (p.1 + i, p.2))) := by
  induction args with
  | nil => intro i lst aws; simp [asyncCollect, aPlains, aAws]
  | cons r rest ih =>
    intro i lst aws
    rcases r with ⟨rv, rfn, rd⟩
    cases rv with
    | some v =>
      simp [asyncCollect, aPlains, aAws, ih, shift_shift]
      intro a b _
      omega
    | none =>
      cases rfn with
      | none =>
        simp [asyncCollect, aPlains, aAws, ih, shift_shift]
        intro a b _
        omega
      | some pw =>
        rcases pw with ⟨aw, w⟩
        cases aw
        · simp [asyncCollect, aPlains, aAws, ih, shift_shift]
          intro a b _
          omega
        · simp [asyncCollect, aPlains, aAws, ih, shift_shift]
          intro a b _
          omega

theorem foldl_insert_shift (x : List (Nat × α)) (v : Option α) (l : List (Option α)) :
    (x.map (fun p => (p.1 + 1, p.2))).foldl (fun acc p => pyInsert p.1 (some p.2) acc)
      (v :: l) =
      v :: x.foldl (fun acc p => pyInsert p.1 (some p.2) acc) l := by
  induction x generalizing l with
  | nil => rfl
  | cons p rest ih =>
    simp only [List.map_cons, List.foldl_cons]
    have h1 : pyInsert (p.1 + 1) (some p.2) (v :: l) = v :: pyInsert p.1 (some p.2) l := rfl
    rw [h1, ih]

theorem foldl_insert_aAws (args : List (AArg α)) :
    (aAws args).foldl (fun acc p => pyInsert p.1 (some p.2) acc) (aPlains args) =
      args.map aVal := by
  induction args with
  | nil => rfl
  | cons r rest ih =>
    rcases r with ⟨rv, rfn, rd⟩
    cases rv with
    | some v => simp [aAws, aPlains, aVal, foldl_insert_shift, ih]
    | none =>
      cases rfn with
      | none => simp [aAws, aPlains, aVal, foldl_insert_shift, ih]
      | some pw =>
        rcases pw with ⟨aw, w⟩
        cases aw
        · simp [aAws, aPlains, aVal, foldl_insert_shift, ih]
        · have h0 : pyInsert 0 (some w) (aPlains rest) = some w :: aPlains rest := rfl
          simp only [aAws, aPlains, aVal, List.foldl_cons, List.map_cons, h0,
            foldl_insert_shift, ih]

/-- C9: the final positional argument list built by `async_iargs`
preserves the original declaration order of all slots — each awaited
result is re-inserted at its original index among the non-awaitable
values, so the factory receives exactly the per-slot resolved values in
declaration order, whatever mix of awaitable and plain results the
dependencies produced. -/
theorem async_iargs_preserves_order (args : List (AArg α)) :
    async_iargs args = args.map aVal := by
  have h0 : (aAws args).map (fun p => (p.1 + 0, p.2)) = aAws args := by
    induction aAws args with
    | nil => rfl
    | cons p rest ih => simp [ih]
  have h2 : async_iargs args =
      (aAws args).foldl (fun l p => pyInsert p.1 (some p.2) l) (aPlains args) := by
    unfold async_iargs
    rw [asyncCollect_spec args 0 [] []]
    simp only [List.nil_append, h0]
  rw [h2]
  exact foldl_insert_aAws args

theorem runCbs_trace_ids (fr : Option Exc) :
    ∀ (l : List (Nat × (Option Exc → CbRes))) (ed : Option Exc) (p s : Bool),
      (runCbs fr l ed p s).1.map Prod.fst = l.map Prod.fst := by
  intro l
  induction l with
  | nil => intro ed p s; rfl
  | cons c rest ih =>
    intro ed p s
    rcases c with ⟨i, cb⟩
    simp [runCbs, ih]

/-- C7: on exit-stack close every registered callback is invoked exactly
once, in LIFO order (the reverse of registration), whatever the
callbacks do — so callbacks registered before a raising one still run.
In the concrete scenarios, each callback receives `(None, None, None)`'s
model or the exception triple propagating at that point; when `B`'s
teardown raises, `A` still runs (receiving `B`'s exception) and the
surfaced exception keeps the original in-flight exception as its
`__context__`; when two teardowns raise, `_fix_exception_context`
patches the second exception's context chain so the first raised
exception remains visible as `__context__` after the frame's own
context. -/
theorem exit_stack_behaviour :
    (∀ (cbs : List (Nat × (Option Exc → CbRes))) (ed fr : Option Exc),
        (stackExit cbs ed fr).trace.map Prod.fst = (cbs.map Prod.fst).reverse) ∧
    stackExit demoStackB (some frameExc0) (some frameExc0) =
      ⟨[(3, some frameExc0), (2, some frameExc0), (1, some (.mk 9 (some frameExc0)))],
        some (.mk 9 (some frameExc0)), false⟩ ∧
    stackExit demoStackAB (some frameExc0) (some frameExc0) =
      ⟨[(3, some frameExc0), (2, some frameExc0), (1, some (.mk 8 (some frameExc0)))],
        some (.mk 9 (some (.mk 8 (some frameExc0)))), false⟩ := by
  refine ⟨?_, rfl, rfl⟩
  intro cbs ed fr
  simp [stackExit, runCbs_trace_ids]

/-- C6 counterexample: for the root `mk 0` including `mk 1` then `mk 2`,
the traversal emits the containers `[root, mk 2, mk 1, mk 1]` — the root
appears first (not last) and `mk 1`, reachable once but preceded by a
sibling, is yielded twice, so the sequence is not duplicate-free. -/
theorem dro_entries_counterexample :
    droVisited (.mk 0 [.mk 1 [], .mk 2 []]) =
      [.mk 0 [.mk 1 [], .mk 2 []], .mk 2 [], .mk 1 [], .mk 1 []] ∧
    ¬ (droVisited (.mk 0 [.mk 1 [], .mk 2 []])).Nodup ∧
    (droVisited (.mk 0 [.mk 1 [], .mk 2 []])).getLast? ≠
      some (.mk 0 [.mk 1 [], .mk 2 []]) := by
  refine ⟨?_, ?_, ?_⟩ <;>
    simp [droVisited, droEntries_mk, droChain_nil, droChain_cons,
      List.getLast?_cons_cons]

/-- C6 (amended): for every fixed container inclusion graph the
`_dro_entries_` traversal is a pure function of the graph (hence
deterministic), proceeds depth-first over `reversed(included)` (right to
left), yields the root container *first*, and yields every transitively
included container at least once — but a container may be yielded more
than once (once per inclusion path, plus one sibling-chain pair), so
deduplication is left to the consumer and the root is not last. -/
theorem dro_entries_traversal :
    (∀ (c : Ctr) (src : Option Ctr), ((droEntries c src).map Prod.snd).head? = some c) ∧
    (∀ (c e : Ctr), Reaches c e → ∀ src, e ∈ (droEntries c src).map Prod.snd) := by
  constructor
  · intro c src
    cases c with
    | mk i inc =>
      rw [droEntries_mk]
      rfl
  · intro c e h
    induction h with
    | refl c =>
      intro src
      cases c with
      | mk i inc =>
        rw [droEntries_mk]
        simp
    | step hd hre ih =>
      intro src
      rename_i c d e
      cases c with
      | mk i inc =>
        simp only [Ctr.included] at hd
        have hd' : d ∈ inc.reverse := List.mem_reverse.mpr hd
        rw [droEntries_mk]
        cases hrev : inc.reverse with
        | nil =>
          rw [hrev] at hd'
          cases hd'
        | cons p rest =>
          rw [hrev] at hd'
          simp only [List.map_cons, List.map_append, List.mem_cons, List.mem_append]
          rcases List.mem_cons.mp hd' with h1 | h2
          · subst h1
            exact Or.inr (Or.inl (ih (some (.mk i inc))))
          · exact Or.inr (Or.inr (mem_chain e rest (.mk i inc) p d h2 ih))

/-- C6 witness: the traversal theorem applied to a concrete graph —
the root of `mk 0 [mk 1 []]` heads its own visit sequence and the
included `mk 1 []` occurs in it. -/
theorem dro_entries_traversal_witness :
    ((droEntries (.mk 0 [.mk 1 []]) none).map Prod.snd).head? =
      some (.mk 0 [.mk 1 []]) ∧
    (.mk 1 [] : Ctr) ∈ (droEntries (.mk 0 [.mk 1 []]) none).map Prod.snd :=
  ⟨dro_entries_traversal.1 (.mk 0 [.mk 1 []]) none,
    dro_entries_traversal.2 (.mk 0 [.mk 1 []]) (.mk 1 [])
      (Reaches.step (by simp [Ctr.included]) (Reaches.refl _)) none⟩

/-- C1 witness: the amended theorem applied at concrete inputs — one
injected slot, user argument `(7)`, and a user keyword `x = 5`
overriding an injected keyword `x = 1`. -/
theorem callable_iargs_modes_witness :
    iargsC true [⟨none, some 3, none⟩] [7] = [some 3, some 7] ∧
    callableCallKw (fun m => if m == "x" then some 1 else none) []
      (fun m => if m == "x" then some 5 else none) "x" = some 5 := by
  have h := callable_iargs_modes (α := Nat) [⟨none, some 3, none⟩] [7]
    (fun m => if m == "x" then some 1 else none)
    (fun m => if m == "x" then some 5 else none) [] "x" 5
  exact ⟨by rw [h.1]; rfl, h.2.2 (by decide)⟩

/-- C2: `_reduce_providers` keeps only `can_bind`-passing providers,
discards defaults exactly when a retained non-default exists, makes the
head of a non-empty result the primary provider with the rest passed to
`substitute`, and resolves to nothing on an empty result — i.e. it
coincides with the specification's description of binding lookup for
every substitution operation and every candidate stack. -/
theorem reduce_providers_matches_spec
    (sub : ProviderR → List ProviderR → ProviderR) (stack : List ProviderR) :
    reduce_providers sub stack = reduce_providers_spec sub stack := by
  unfold reduce_providers reduce_providers_spec
  cases h : (stack.filter (fun v => v.canBind)).filter (fun v => !v.is_default) with
  | nil =>
    have hany : (stack.filter (fun v => v.canBind)).any (fun v => !v.is_default) = false := by
      rw [List.filter_eq_nil_iff] at h
      rw [List.any_eq_false]
      intro a ha
      simp [h a ha]
    simp [h, hany]
  | cons p rest =>
    have hany : (stack.filter (fun v => v.canBind)).any (fun v => !v.is_default) = true := by
      have hp : p ∈ (stack.filter (fun v => v.canBind)).filter (fun v => !v.is_default) := by
        rw [h]; exact List.mem_cons_self p rest
      rw [List.mem_filter] at hp
      exact List.any_eq_true.mpr ⟨p, hp.1, hp.2⟩
    simp [h, hany]

/-- C3: starting from a fresh cell, if the first factory invocation
succeeds with `v`, then `n ≥ 1` calls of the singleton closure all
return that same cached `v` and the factory is invoked exactly once;
the first successful invocation memoises the value and later calls
never touch the factory again. -/
theorem singleton_memoises (f : Nat → Except ε α) (n : Nat) (v : α)
    (hn : 1 ≤ n) (hf : f 0 = .ok v) :
    singletonRunN f n ⟨none, 0⟩ = (List.replicate n (.ok v), ⟨some v, 1⟩) := by
  obtain ⟨m, rfl⟩ : ∃ m, n = m + 1 := ⟨n - 1, by omega⟩
  have hcached : ∀ (k : Nat) (s : SingletonSt α ε), s.value = some v →
      singletonRunN f k s = (List.replicate k (.ok v), s) := by
    intro k
    induction k with
    | zero => intro s _; rfl
    | succ k ih =>
      intro s hs
      have hstep : singletonStep f s = (.ok v, s) := by
        unfold singletonStep
        rw [hs]
      simp [singletonRunN, hstep, ih s hs, List.replicate_succ]
  have h1 : singletonStep f ⟨none, 0⟩ = (.ok v, ⟨some v, 1⟩) := by
    unfold singletonStep
    simp [hf]
  simp [singletonRunN, h1, hcached m ⟨some v, 1⟩ rfl, List.replicate_succ]

/-- C3 witness: three calls of a singleton over a concrete factory return
the memoised value three times with exactly one factory invocation. -/
theorem singleton_memoises_witness :
    singletonRunN (fun _ => (.ok 42 : Except Unit Nat)) 3 ⟨none, 0⟩ =
      (List.replicate 3 (.ok 42), ⟨some 42, 1⟩) :=
  singleton_memoises (fun _ => (.ok 42 : Except Unit Nat)) 3 42 (by decide) rfl

/-- C5: the code contradicts the claim's consequence for `!=`.  Hashing is
by name and `__eq__` is identity as claimed, but `__ne__` — written
`not o is self or (True if isinstance(o, Container) else NotImplemented)` —
returns `True` for every pair of containers, including a container
compared with itself: `c != c` evaluates to `True`, never `False`. -/
theorem containerNe_always_true :
    (∀ h c, containerHash h c = h c.name) ∧
    (∀ self o : ContainerObj, containerEq self o = (if o.oid == self.oid then .T else .F)) ∧
    (∀ self o : ContainerObj, containerNe self o = .T) ∧
    containerNe ⟨1, "app"⟩ ⟨1, "app"⟩ = .T := by
  refine ⟨fun h c => rfl, fun self o => rfl, fun self o => ?_, by decide⟩
  unfold containerNe
  cases h : isSame o self <;> simp

/-- C4: a `BindingsMap` lookup memoises its outcome, positive or negative:
after a first lookup of `k`, a second lookup returns the very same stored
entry — the identical resolver object, or the identical cached `None` —
and leaves the map and the resolution counter untouched (resolution is
not re-run).  Moreover a first miss with no provider caches `None` as the
stored entry for `k`. -/
theorem bindingsMap_memoises (provided : Nat → Bool) (st : BindingsSt) (k : Nat) :
    (bindingsGetitem provided (bindingsGetitem provided st k).2 k =
      ((bindingsGetitem provided st k).1, (bindingsGetitem provided st k).2)) ∧
    (cacheLookup st.cache k = none → provided k = false →
      cacheLookup (bindingsGetitem provided st k).2.cache k = some none) := by
  have happ : ∀ (c : List (Nat × Option ResolverObj)) (v : Option ResolverObj),
      cacheLookup c k = none → cacheLookup (c ++ [(k, v)]) k = some v := by
    intro c v hc
    unfold cacheLookup at hc ⊢
    have hf : c.find? (fun p => p.1 == k) = none := by
      cases h : c.find? (fun p => p.1 == k) with
      | none => rfl
      | some q => rw [h] at hc; simp at hc
    rw [List.find?_append, hf]
    simp
  constructor
  · unfold bindingsGetitem
    cases h : cacheLookup st.cache k with
    | some v => simp [h]
    | none =>
      simp only [h]
      have := happ st.cache (if provided k then some ⟨k, st.rcalls⟩ else none) h
      simp [this]
  · intro hmiss hnone
    unfold bindingsGetitem
    simp only [hmiss, hnone]
    have := happ st.cache none hmiss
    simpa [hnone] using this

/-- C4 witness: instantiation at a concrete empty bindings map, an
unprovided key `5`, showing both the idempotent second lookup and the
cached negative entry. -/
theorem bindingsMap_memoises_witness :
    (bindingsGetitem (fun _ => false) (bindingsGetitem (fun _ => false) ⟨[], 0⟩ 5).2 5 =
      ((bindingsGetitem (fun _ => false) ⟨[], 0⟩ 5).1,
        (bindingsGetitem (fun _ => false) ⟨[], 0⟩ 5).2)) ∧
    cacheLookup (bindingsGetitem (fun _ => false) ⟨[], 0⟩ 5).2.cache 5 = some none :=
  ⟨(bindingsMap_memoises (fun _ => false) ⟨[], 0⟩ 5).1,
    (bindingsMap_memoises (fun _ => false) ⟨[], 0⟩ 5).2 rfl rfl⟩

/-- C10: every public mutator of `BindingsMap` — `__setitem__`,
`__delitem__`, `setdefault`, `pop`, `popitem`, `update`, `clear`, `copy` —
raises `TypeError` for every input and leaves the map untouched; the only
way entries appear is the internal `__missing__` path of a lookup, and a
lookup never replaces or removes an entry that is already cached. -/
theorem bindingsMap_not_mutable :
    (∀ st k v, bmSetitem st k v = .error (.typeError "immutable type BindingsMap")) ∧
    (∀ st k, bmDelitem st k = .error (.typeError "immutable type BindingsMap")) ∧
    (∀ st k v, bmSetdefault st k v = .error (.typeError "immutable type BindingsMap")) ∧
    (∀ st k, bmPop st k = .error (.typeError "immutable type BindingsMap")) ∧
    (∀ st, bmPopitem st = .error (.typeError "immutable type BindingsMap")) ∧
    (∀ st other, bmUpdate st other = .error (.typeError "immutable type BindingsMap")) ∧
    (∀ st, bmClear st = .error (.typeError "immutable type BindingsMap")) ∧
    (∀ st, bmCopy st = .error (.typeError "immutable type BindingsMap")) ∧
    (∀ provided st k j w, cacheLookup st.cache j = some w →
      cacheLookup (bindingsGetitem provided st k).2.cache j = some w) := by
  refine ⟨fun _ _ _ => rfl, fun _ _ => rfl, fun _ _ _ => rfl, fun _ _ => rfl,
    fun _ => rfl, fun _ _ => rfl, fun _ => rfl, fun _ => rfl,
    fun provided st k j w hj => ?_⟩
  unfold bindingsGetitem
  cases h : cacheLookup st.cache k with
  | some v => simpa [h] using hj
  | none =>
    simp only [h]
    unfold cacheLookup at hj ⊢
    rcases hfind : st.cache.find? (fun p => p.1 == j) with _ | p
    · simp [hfind] at hj
    · rw [List.find?_append, hfind]
      simpa [hfind] using hj

/-- C10 witness: the mutators reject a concrete input and a cached entry
for key `3` survives a later lookup of key `7`. -/
theorem bindingsMap_not_mutable_witness :
    bmSetitem ⟨[], 0⟩ 3 none = .error (.typeError "immutable type BindingsMap") ∧
    cacheLookup (bindingsGetitem (fun _ => true) ⟨[(3, none)], 1⟩ 7).2.cache 3 = some none :=
  ⟨bindingsMap_not_mutable.1 ⟨[], 0⟩ 3 none,
    (bindingsMap_not_mutable.2.2.2.2.2.2.2.2 (fun _ => true) ⟨[(3, none)], 1⟩ 7 3 none
      (by decide))⟩

/-- C8: parameter classification — a non-marker, non-absent partial value
makes the parameter a fixed value; otherwise the dependency candidate is
the value if it is a marker, else the default if it is a marker, else the
annotation; a marker value never counts as a fixed value and a marker
default never counts as a usable default. -/
theorem paramRes_classification (v d a : PyVal) :
    ((mkParamRes v d a).has_value = (!(v == .empty) && !(isMarker v))) ∧
    ((mkParamRes v d a).dependency =
      (if isMarker v then v else if isMarker d then d else a)) ∧
    ((mkParamRes v d a).has_default = (!(d == .empty) && !(isMarker d))) ∧
    (isMarker v = true → (mkParamRes v d a).has_value = false) ∧
    (isMarker d = true → (mkParamRes v d a).has_default = false) := by
  refine ⟨?_, rfl, ?_, ?_, ?_⟩
  · unfold mkParamRes
    cases v <;> cases d <;> simp [isMarker]
  · unfold mkParamRes
    cases v <;> cases d <;> simp [isMarker]
  · intro hv
    unfold mkParamRes
    simp [hv]
  · intro hd
    unfold mkParamRes
    simp [hd]

/-- C8 witness: a marker value is classified as a dependency, not a fixed
value, even when a literal default is present. -/
theorem paramRes_classification_witness :
    (mkParamRes (.marker 4) (.lit 9) (.lit 2)).has_value = false ∧
    (mkParamRes (.marker 4) (.lit 9) (.lit 2)).dependency = .marker 4 :=
  ⟨(paramRes_classification (.marker 4) (.lit 9) (.lit 2)).2.2.2.1 rfl,
    (paramRes_classification (.marker 4) (.lit 9) (.lit 2)).2.1⟩

end Xdi
